import Mathlib

/-!
# Verification of the Automerge frontend specification

This development embeds the frontend of the Automerge CRDT JSON document
engine (aslakhellesoy/automerge) in Lean 4.  The repository ships only the
frontend's test suite (`src/test/frontend_test.ts`) and type declarations
(`src/@types/automerge/index.d.ts`); the frontend implementation itself is
not part of the sources.  All operational definitions below are therefore
modelled from the specification (`spec.md`), with the test file's assertions
used to pin down behaviour the specification leaves open (notably the
index-transformation of concurrent list insertions, whose observable
behaviour is fixed by the test named "should transform concurrent
insertions").
-/

set_option linter.unusedVariables false

namespace Automerge

/-- Actor identifiers are UUID strings (spec §3). -/
abbrev ActorId := String

/-- Object identifiers are UUID strings, or the reserved root id (spec §3). -/
abbrev ObjectId := String

/-- The reserved root object id (spec §6, sentinel constants). -/
def ROOT_ID : ObjectId := "00000000-0000-0000-0000-000000000000"

/-- The list-head sentinel used as the `key` of `ins` ops (spec §6). -/
def HEAD : String := "_head"

/-! ## Association lists

The immutable maps of the tree store (`cache`, `conflicts`, `deps`,
`maxElem`) are modelled as association lists with last-writer-wins
insertion. -/

/-- Look up a key in an association list. -/
def alookup {α β : Type} [DecidableEq α] (k : α) : List (α × β) → Option β
  | [] => none
  | (k', v) :: rest => if k = k' then some v else alookup k rest

/-- Insert or replace a binding in an association list. -/
def aset {α β : Type} [DecidableEq α] (k : α) (v : β) : List (α × β) → List (α × β)
  | [] => [(k, v)]
  | (k', v') :: rest => if k = k' then (k, v) :: rest else (k', v') :: aset k v rest

/-- Remove a binding from an association list. -/
def aremove {α β : Type} [DecidableEq α] (k : α) : List (α × β) → List (α × β)
  | [] => []
  | (k', v') :: rest => if k = k' then rest else (k', v') :: aremove k rest

@[simp]
theorem alookup_nil {α β : Type} [DecidableEq α] (k : α) :
    alookup (β := β) k [] = none := rfl

@[simp]
theorem alookup_cons {α β : Type} [DecidableEq α] (k k' : α) (v : β) (l : List (α × β)) :
    alookup k ((k', v) :: l) = if k = k' then some v else alookup k l := rfl

@[simp]
theorem aset_nil {α β : Type} [DecidableEq α] (k : α) (v : β) :
    aset k v [] = [(k, v)] := rfl

@[simp]
theorem aset_cons {α β : Type} [DecidableEq α] (k k' : α) (v v' : β) (l : List (α × β)) :
    aset k v ((k', v') :: l) =
      if k = k' then (k, v) :: l else (k', v') :: aset k v l := rfl

theorem alookup_aset_self {α β : Type} [DecidableEq α] (k : α) (v : β) (l : List (α × β)) :
    alookup k (aset k v l) = some v := by
  induction l with
  | nil => simp [alookup, aset]
  | cons hd tl ih =>
    obtain ⟨k', v'⟩ := hd
    by_cases h : k = k' <;> simp [alookup, aset, h, ih]

theorem alookup_aset_ne {α β : Type} [DecidableEq α] (k k' : α) (v : β) (l : List (α × β))
    (h : k ≠ k') : alookup k (aset k' v l) = alookup k l := by
  induction l with
  | nil => simp [alookup, aset, h]
  | cons hd tl ih =>
    obtain ⟨k'', v''⟩ := hd
    by_cases h2 : k' = k''
    · subst h2
      simp [alookup, aset, h]
    · by_cases h3 : k = k'' <;> simp [alookup, aset, h2, h3, ih]

theorem alookup_aremove_ne {α β : Type} [DecidableEq α] (k k' : α) (l : List (α × β))
    (h : k ≠ k') : alookup k (aremove k' l) = alookup k l := by
  induction l with
  | nil => simp [aremove]
  | cons hd tl ih =>
    obtain ⟨k'', v''⟩ := hd
    by_cases h2 : k' = k''
    · subst h2
      simp [alookup, aremove, h]
    · by_cases h3 : k = k'' <;> simp [alookup, aremove, h2, h3, ih]

/-! ## Identifier and value primitives (spec §3) -/

/-- An `ElemId` identifies a list position: the pair `(ActorId, counter)`,
serialised as `"<actor>:<counter>"` (spec §3). -/
structure ElemId where
  actor : ActorId
  ctr : Nat
deriving DecidableEq, Repr

/-- Serialisation of an `ElemId` as `"<actor>:<counter>"` (spec §3). -/
def ElemId.str (e : ElemId) : String :=
  e.actor ++ ":" ++ toString e.ctr

/-- The total order on `ElemId`: lexicographic by `(counter, actor)` —
counter first, then actor id lexicographically (spec §3). -/
def ElemId.ltb (a b : ElemId) : Bool :=
  a.ctr < b.ctr || (a.ctr = b.ctr && a.actor < b.actor)

/-- A CRDT value: a primitive, a timestamp, a counter, or a link to another
object (spec §3, "Value"). -/
inductive Value where
  | null : Value
  | bool : Bool → Value
  | int : Int → Value
  | str : String → Value
  | timestamp : Int → Value
  | counter : Int → Value
  | objRef : ObjectId → Value
deriving DecidableEq, Repr

/-- A node of the immutable tree store: a map node with named fields, or a
list node pairing each element with its `ElemId` (spec §3, "Node"; the
invariant `len(elements) == len(elemIds)` is baked in by pairing). -/
inductive Node where
  | mapNode : List (String × Value) → Node
  | listNode : List (ElemId × Value) → Node
deriving DecidableEq, Repr

/-- A dependency vector clock `ActorId → u64` (spec §3). -/
abbrev Clock := List (ActorId × Nat)

/-- Per-field conflict buckets: `ObjectId → Key → (ActorId → Value)`
(spec §3, `conflicts`). -/
abbrev ConflictMap := List (ObjectId × List (String × List (ActorId × Value)))

/-- A snapshot of the materialised state: object cache plus conflict
buckets (spec §3, `cache` and `conflicts`). -/
structure Snap where
  cache : List (ObjectId × Node)
  conflicts : ConflictMap
deriving DecidableEq, Repr

/-- The wire datatype tag on `set` ops (spec §6). -/
inductive DType where
  | counter : DType
  | timestamp : DType
deriving DecidableEq, Repr

/-- A frontend CRDT operation (spec §6, wire format of a `Change`;
action enum `makeMap | makeList | set | del | link | ins | inc`). -/
inductive Op where
  | makeMap : ObjectId → Op
  | makeList : ObjectId → Op
  | set : ObjectId → String → Value → Option DType → Op
  | del : ObjectId → String → Op
  | link : ObjectId → String → ObjectId → Op
  | ins : ObjectId → String → Nat → Op
  | inc : ObjectId → String → Int → Op
deriving DecidableEq, Repr

/-- A backend-produced diff (spec §4.3).  The `link` flag of the source is
subsumed by `Value.objRef`; `conflicts` carries the losing candidates of a
map-key write. -/
inductive Diff where
  | createMap : ObjectId → Diff
  | createList : ObjectId → Diff
  | setMap : ObjectId → String → Value → List (ActorId × Value) → Diff
  | setList : ObjectId → Nat → Value → Diff
  | insert : ObjectId → Nat → Value → ElemId → Diff
  | removeMap : ObjectId → String → Diff
  | removeList : ObjectId → Nat → Diff
deriving DecidableEq, Repr

/-- The object a diff touches (spec §4.3: every diff carries `obj`). -/
def Diff.obj : Diff → ObjectId
  | .createMap o => o
  | .createList o => o
  | .setMap o _ _ _ => o
  | .setList o _ _ => o
  | .insert o _ _ _ => o
  | .removeMap o _ => o
  | .removeList o _ => o

/-- Error kinds of the frontend (spec §7). -/
inductive FrontErr where
  | actorIdUnset : FrontErr
  | cannotOverwriteCounter : FrontErr
  | unsupportedValue : FrontErr
  | mismatchedSequence : FrontErr
deriving DecidableEq, Repr

/-- A pending optimistic request (spec §4.2, "Commit"): the change data
(`actor`, `seq`, `deps`, `ops`), the locally computed diffs used for
optimistic replay, and the `before` snapshot recording the authoritative
state the request was applied on top of. -/
structure Request where
  actor : ActorId
  seq : Nat
  deps : Clock
  ops : List Op
  diffs : List Diff
  before : Snap
deriving DecidableEq, Repr

/-- The change-view of a request: the fields that make up the emitted
`Change` (the test suite's `getRequests` strips `before` and `diffs`). -/
def Request.view (r : Request) : ActorId × Nat × Clock × List Op :=
  (r.actor, r.seq, r.deps, r.ops)

/-- A backend-produced patch (spec §4.3). -/
structure Patch where
  actor : Option ActorId
  seq : Option Nat
  clock : Option Clock
  deps : Option Clock
  diffs : List Diff
deriving DecidableEq, Repr

/-- A frontend document (spec §3, "Document"): deferred-able actor id,
highest local sequence number, authoritative dependency clock, the rendered
snapshot, per-list element allocation counters, and the optimistic request
queue. -/
structure Doc where
  actorId : Option ActorId
  seq : Nat
  deps : Clock
  snap : Snap
  maxElem : List (ObjectId × Nat)
  requests : List Request
deriving DecidableEq, Repr

/-! ## Mutation proxy (spec §4.2)

Modelled from the spec: the frontend's transparent mutation proxy is not
under `src/`; following spec §9 ("Proxy interception without dynamic
metaprogramming") it is modelled as an explicit change context whose
commands the callback issues. -/

/-- A mutation command issued by a `change` callback (spec §4.2 and §9:
`setField`, `deleteField`, `listInsert`, `listSet`, `listDelete`, counter
increment, and assignment of a fresh list literal). -/
inductive Cmd where
  | setKey : ObjectId → String → Value → Cmd
  | delKey : ObjectId → String → Cmd
  | incKey : ObjectId → String → Int → Cmd
  | newList : ObjectId → String → ObjectId → List Value → Cmd
  | insertAt : ObjectId → Nat → Value → Cmd
  | setIdx : ObjectId → Nat → Value → Cmd
  | deleteAt : ObjectId → Nat → Cmd
deriving DecidableEq, Repr

/-- The change context: scratch overlay snapshot, accumulated op list,
locally computed optimistic diffs, and per-list element counters
(spec §4.2). -/
structure Ctx where
  snap : Snap
  ops : List Op
  diffs : List Diff
  maxElem : List (ObjectId × Nat)
deriving DecidableEq, Repr

/-- Wire encoding of a value on a `set` op: counters and timestamps are sent
as their integer value plus a `datatype` tag (spec §4.2). -/
def opValue : Value → Value × Option DType
  | .counter n => (.int n, some .counter)
  | .timestamp t => (.int t, some .timestamp)
  | v => (v, none)

/-- Whether an op is a `set` on the given object and key. -/
def Op.isSetOn (obj : ObjectId) (key : String) : Op → Bool
  | .set o k _ _ => o = obj && k = key
  | _ => false

/-- Op coalescing rule 3 (spec §4.2): writing the same key repeatedly keeps
only the last `set`. -/
def coalesceSet (obj : ObjectId) (key : String) (v : Value) (dt : Option DType)
    (ops : List Op) : List Op :=
  ops.filter (fun op => !(op.isSetOn obj key)) ++ [.set obj key v dt]

/-- Op coalescing rule 1 (spec §4.2): an increment following an assignment of
the same counter in the same change folds the delta into the `set`, dropping
the `datatype` tag.  Returns `none` when there is no `set` op to fold into. -/
def bumpSet (obj : ObjectId) (key : String) (d : Int) : List Op → Option (List Op)
  | [] => none
  | .set o k (.int n) dt :: rest =>
    if o = obj ∧ k = key then some (.set o k (.int (n + d)) none :: rest)
    else (bumpSet obj key d rest).map (.set o k (.int n) dt :: ·)
  | op :: rest => (bumpSet obj key d rest).map (op :: ·)

/-- Op coalescing rule 2 (spec §4.2): multiple `inc` ops on the same
`(obj, key)` collapse into a single `inc` with summed delta. -/
def bumpInc (obj : ObjectId) (key : String) (d : Int) : List Op → Option (List Op)
  | [] => none
  | .inc o k e :: rest =>
    if o = obj ∧ k = key then some (.inc o k (e + d) :: rest)
    else (bumpInc obj key d rest).map (.inc o k e :: ·)
  | op :: rest => (bumpInc obj key d rest).map (op :: ·)

/-- The coalesced op list after an increment of `(obj, key)` by `d`
(spec §4.2, rules 1 and 2, falling back to appending a fresh `inc`). -/
def coalesceInc (obj : ObjectId) (key : String) (d : Int) (ops : List Op) : List Op :=
  match bumpSet obj key d ops with
  | some l => l
  | none =>
    match bumpInc obj key d ops with
    | some l => l
    | none => ops ++ [.inc obj key d]

/-- Element-id/value pairs for the elements of a fresh list literal, minting
counters `start+1, start+2, …` for this actor (spec §4.2, list `insertAt`). -/
def mintPairs (actor : ActorId) : Nat → List Value → List (ElemId × Value)
  | _, [] => []
  | i, v :: rest => (⟨actor, i + 1⟩, v) :: mintPairs actor (i + 1) rest

/-- The `ins`/`set` op sequence for the elements of a fresh list literal
(spec §4.2: `{action: "ins", key: predecessorElemId | "_head", elem}`
followed by the `set` of the new element). -/
def insOps (actor : ActorId) (listId : ObjectId) : Nat → List Value → List Op
  | _, [] => []
  | i, v :: rest =>
    let pred := if i = 0 then HEAD else ElemId.str ⟨actor, i⟩
    let wv := opValue v
    .ins listId pred (i + 1) :: .set listId (ElemId.str ⟨actor, i + 1⟩) wv.1 wv.2 ::
      insOps actor listId (i + 1) rest

/-- The optimistic insert diffs for the elements of a fresh list literal. -/
def insDiffs (actor : ActorId) (listId : ObjectId) : Nat → List Value → List Diff
  | _, [] => []
  | i, v :: rest => .insert listId i v ⟨actor, i + 1⟩ :: insDiffs actor listId (i + 1) rest

/-- Execute one mutation command against the change context (spec §4.2: each
write records an op and updates the scratch overlay; assigning atop a
`Counter` fails with `CannotOverwriteCounter`). -/
def applyCmd (actor : ActorId) (ctx : Ctx) : Cmd → Except FrontErr Ctx
  | .setKey obj key v =>
    match alookup obj ctx.snap.cache with
    | some (.mapNode fs) =>
      match alookup key fs with
      | some (.counter _) => .error .cannotOverwriteCounter
      | _ =>
        let wv := opValue v
        .ok ⟨⟨aset obj (.mapNode (aset key v fs)) ctx.snap.cache, ctx.snap.conflicts⟩,
             coalesceSet obj key wv.1 wv.2 ctx.ops,
             ctx.diffs ++ [.setMap obj key v []], ctx.maxElem⟩
    | _ => .error .unsupportedValue
  | .delKey obj key =>
    match alookup obj ctx.snap.cache with
    | some (.mapNode fs) =>
      .ok ⟨⟨aset obj (.mapNode (aremove key fs)) ctx.snap.cache, ctx.snap.conflicts⟩,
           ctx.ops ++ [.del obj key], ctx.diffs ++ [.removeMap obj key], ctx.maxElem⟩
    | _ => .error .unsupportedValue
  | .incKey obj key d =>
    match alookup obj ctx.snap.cache with
    | some (.mapNode fs) =>
      match alookup key fs with
      | some (.counter c) =>
        .ok ⟨⟨aset obj (.mapNode (aset key (.counter (c + d)) fs)) ctx.snap.cache,
              ctx.snap.conflicts⟩,
             coalesceInc obj key d ctx.ops,
             ctx.diffs ++ [.setMap obj key (.counter (c + d)) []], ctx.maxElem⟩
      | _ => .error .unsupportedValue
    | _ => .error .unsupportedValue
  | .newList parent key listId vals =>
    match alookup listId ctx.snap.cache with
    | some _ => .error .unsupportedValue
    | none =>
      match alookup parent ctx.snap.cache with
      | some (.mapNode fs) =>
        match alookup key fs with
        | some (.counter _) => .error .cannotOverwriteCounter
        | _ =>
          let cache1 := aset listId (.listNode (mintPairs actor 0 vals)) ctx.snap.cache
          let cache2 := aset parent (.mapNode (aset key (.objRef listId) fs)) cache1
          .ok ⟨⟨cache2, ctx.snap.conflicts⟩,
               ctx.ops ++ .makeList listId :: insOps actor listId 0 vals ++
                 [.link parent key listId],
               ctx.diffs ++ .createList listId :: insDiffs actor listId 0 vals ++
                 [.setMap parent key (.objRef listId) []],
               aset listId vals.length ctx.maxElem⟩
      | _ => .error .unsupportedValue
  | .insertAt obj idx v =>
    match alookup obj ctx.snap.cache with
    | some (.listNode es) =>
      if idx ≤ es.length then
        let m := (alookup obj ctx.maxElem).getD 0 + 1
        let eid : ElemId := ⟨actor, m⟩
        let pred :=
          if idx = 0 then HEAD
          else
            match es.get? (idx - 1) with
            | some pe => pe.1.str
            | none => HEAD
        let wv := opValue v
        .ok ⟨⟨aset obj (.listNode (es.take idx ++ (eid, v) :: es.drop idx)) ctx.snap.cache,
              ctx.snap.conflicts⟩,
             ctx.ops ++ [.ins obj pred m, .set obj eid.str wv.1 wv.2],
             ctx.diffs ++ [.insert obj idx v eid],
             aset obj m ctx.maxElem⟩
      else .error .unsupportedValue
    | _ => .error .unsupportedValue
  | .setIdx obj idx v =>
    match alookup obj ctx.snap.cache with
    | some (.listNode es) =>
      match es.get? idx with
      | some (eid, .counter _) => .error .cannotOverwriteCounter
      | some (eid, _) =>
        let wv := opValue v
        .ok ⟨⟨aset obj (.listNode (es.take idx ++ (eid, v) :: es.drop (idx + 1))) ctx.snap.cache,
              ctx.snap.conflicts⟩,
             coalesceSet obj eid.str wv.1 wv.2 ctx.ops,
             ctx.diffs ++ [.setList obj idx v], ctx.maxElem⟩
      | none => .error .unsupportedValue
    | _ => .error .unsupportedValue
  | .deleteAt obj idx =>
    match alookup obj ctx.snap.cache with
    | some (.listNode es) =>
      match es.get? idx with
      | some (eid, _) =>
        .ok ⟨⟨aset obj (.listNode (es.take idx ++ es.drop (idx + 1))) ctx.snap.cache,
              ctx.snap.conflicts⟩,
             ctx.ops ++ [.del obj eid.str], ctx.diffs ++ [.removeList obj idx], ctx.maxElem⟩
      | none => .error .unsupportedValue
    | _ => .error .unsupportedValue

/-- Run a command list in a fresh change context over the document's
current snapshot (spec §4.2). -/
def runCmds (actor : ActorId) (doc : Doc) (cmds : List Cmd) : Except FrontErr Ctx :=
  cmds.foldlM (applyCmd actor) ⟨doc.snap, [], [], doc.maxElem⟩

/-- Modelled from the spec: `change(doc, callback)` (spec §4.2, "Commit";
the implementation is not under `src/`).  A write before the actor id is
set fails with `ActorIdUnset`; an empty op list returns the input document
itself with no request; otherwise `seq = doc.seq + 1` is allocated, the
emitted deps are the authoritative deps minus this actor's own component,
and the pending request (with its `before` snapshot) is appended. -/
def changeCmds (doc : Doc) (cmds : List Cmd) : Except FrontErr (Doc × Option Request) :=
  match doc.actorId with
  | none => if cmds.isEmpty then .ok (doc, none) else .error .actorIdUnset
  | some actor =>
    match runCmds actor doc cmds with
    | .error e => .error e
    | .ok ctx =>
      if ctx.ops.isEmpty then .ok (doc, none)
      else
        let req : Request :=
          ⟨actor, doc.seq + 1, aremove actor doc.deps, ctx.ops, ctx.diffs, doc.snap⟩
        .ok ({ doc with
                snap := ctx.snap,
                seq := doc.seq + 1,
                maxElem := ctx.maxElem,
                requests := doc.requests ++ [req] }, some req)

/-! ## Patch applier (spec §4.3)

Modelled from the spec: the patch applier is not under `src/`; it folds
backend diffs into a snapshot and reconciles the optimistic request queue,
with concurrent-insertion index transformation pinned by the test
"should transform concurrent insertions". -/

/-- Update the conflict bucket of `(obj, key)` after an authoritative map
write: the bucket records every losing candidate keyed by actor; a write
without conflicts clears the bucket (spec §4.3, "Conflicts"). -/
def setConf (obj : ObjectId) (key : String) (cfl : List (ActorId × Value))
    (conflicts : ConflictMap) : ConflictMap :=
  let bucket := (alookup obj conflicts).getD []
  if cfl.isEmpty then aset obj (aremove key bucket) conflicts
  else aset obj (aset key cfl bucket) conflicts

/-- Drop the conflict bucket of `(obj, key)`. -/
def removeConf (obj : ObjectId) (key : String) (conflicts : ConflictMap) : ConflictMap :=
  aset obj (aremove key ((alookup obj conflicts).getD [])) conflicts

/-- The action of one backend diff on the object cache (spec §4.3, diff
table): `create` allocates an empty node, map `set` writes a field, list
`set` overwrites in place, `insert` splices at the given index recording the
`elemId`, `remove` deletes a field or splices out. -/
def applyDiffCache (cache : List (ObjectId × Node)) : Diff → List (ObjectId × Node)
  | .createMap obj => aset obj (.mapNode []) cache
  | .createList obj => aset obj (.listNode []) cache
  | .setMap obj key v _ =>
    match alookup obj cache with
    | some (.mapNode fs) => aset obj (.mapNode (aset key v fs)) cache
    | _ => cache
  | .setList obj idx v =>
    match alookup obj cache with
    | some (.listNode es) =>
      match es.get? idx with
      | some e => aset obj (.listNode (es.take idx ++ (e.1, v) :: es.drop (idx + 1))) cache
      | none => cache
    | _ => cache
  | .insert obj idx v eid =>
    match alookup obj cache with
    | some (.listNode es) =>
      if idx ≤ es.length then
        aset obj (.listNode (es.take idx ++ (eid, v) :: es.drop idx)) cache
      else cache
    | _ => cache
  | .removeMap obj key =>
    match alookup obj cache with
    | some (.mapNode fs) => aset obj (.mapNode (aremove key fs)) cache
    | _ => cache
  | .removeList obj idx =>
    match alookup obj cache with
    | some (.listNode es) =>
      aset obj (.listNode (es.take idx ++ es.drop (idx + 1))) cache
    | _ => cache

/-- The action of one backend diff on the conflict buckets: a map `set`
records (or clears) the bucket of its key, a map `remove` drops it, and all
other diffs leave the buckets alone (spec §4.3, "Conflicts"). -/
def applyDiffConf (snap : Snap) : Diff → ConflictMap
  | .setMap obj key _ cfl =>
    match alookup obj snap.cache with
    | some (.mapNode _) => setConf obj key cfl snap.conflicts
    | _ => snap.conflicts
  | .removeMap obj key =>
    match alookup obj snap.cache with
    | some (.mapNode _) => removeConf obj key snap.conflicts
    | _ => snap.conflicts
  | _ => snap.conflicts

/-- Fold one backend diff into a snapshot (spec §4.3): the cache and the
conflict buckets are updated by their respective actions. -/
def applyDiff (snap : Snap) (d : Diff) : Snap :=
  ⟨applyDiffCache snap.cache d, applyDiffConf snap d⟩

/-- Fold a diff list into a snapshot in apply order (spec §4.3). -/
def applyDiffs (snap : Snap) (ds : List Diff) : Snap :=
  ds.foldl applyDiff snap

theorem applyDiffs_cache (s : Snap) (ds : List Diff) :
    (applyDiffs s ds).cache = ds.foldl applyDiffCache s.cache := by
  induction ds generalizing s with
  | nil => rfl
  | cons d rest ih => exact ih (applyDiff s d)

/-- Index shift of a pending optimistic list operation past the insertions of
an incoming authoritative patch: every patch insertion into the same list at
an index `≤ i` displaces position `i` one slot to the right (behaviour pinned
by the test "should transform concurrent insertions", which orders
concurrent insertions by arrival rather than by `ElemId`). -/
def insertShift (patchDiffs : List Diff) (obj : ObjectId) (i : Nat) : Nat :=
  i + (patchDiffs.filter fun d =>
        match d with
        | .insert o j _ _ => o = obj && j ≤ i
        | _ => false).length

/-- Transform one pending optimistic diff against an incoming patch's diffs
(index-based concurrency transformation of list positions). -/
def transformDiff (patchDiffs : List Diff) : Diff → Diff
  | .insert o i v e => .insert o (insertShift patchDiffs o i) v e
  | .setList o i v => .setList o (insertShift patchDiffs o i) v
  | .removeList o i => .removeList o (insertShift patchDiffs o i)
  | d => d

/-- Transform a pending request's diffs against an incoming patch's diffs. -/
def transformDiffs (patchDiffs : List Diff) (ds : List Diff) : List Diff :=
  ds.map (transformDiff patchDiffs)

/-- Re-apply one still-pending optimistic request on top of the snapshot
accumulated so far: its diffs are transformed against the patch, its
`before` snapshot is refreshed, and its diffs are folded in (spec §4.3,
"Reconciliation with the optimistic queue"). -/
def replayStep (patchDiffs : List Diff) (acc : Snap × List Request) (r : Request) :
    Snap × List Request :=
  let ds := transformDiffs patchDiffs r.diffs
  (applyDiffs acc.1 ds, acc.2 ++ [{ r with before := acc.1, diffs := ds }])

/-- Re-apply all still-pending optimistic requests on top of the new
authoritative snapshot (spec §4.3). -/
def replay (auth : Snap) (reqs : List Request) (patchDiffs : List Diff) :
    Snap × List Request :=
  reqs.foldl (replayStep patchDiffs) (auth, [])

/-- Refresh the causal metadata from a patch: `seq` is synchronised with the
backend's clock component for this actor and `deps` is refreshed from
`patch.deps` when provided (spec §4.4). -/
def bumpMeta (doc : Doc) (patch : Patch) (snap : Snap) (reqs : List Request) : Doc :=
  { doc with
      snap := snap,
      requests := reqs,
      seq :=
        match patch.clock, doc.actorId with
        | some c, some a => max doc.seq ((alookup a c).getD 0)
        | _, _ => doc.seq,
      deps := patch.deps.getD doc.deps }

/-- Modelled from the spec: `applyPatch(doc, patch)` (spec §4.3; the
implementation is not under `src/`).  A patch carrying this document's own
actor id and a `seq` acknowledges a local request: it must match the head of
the queue (else `MismatchedSequence`) and pops exactly that head.  Any other
patch leaves the queue's changes untouched.  Either way the patch's diffs are
folded into the authoritative snapshot (the head request's `before`), and the
still-pending requests are re-applied on top. -/
def applyPatch (doc : Doc) (patch : Patch) : Except FrontErr Doc :=
  match doc.requests with
  | [] => .ok (bumpMeta doc patch (applyDiffs doc.snap patch.diffs) [])
  | r :: rest =>
    if patch.seq.isSome ∧ patch.actor.isSome ∧ patch.actor = doc.actorId then
      if patch.seq = some r.seq then
        let p := replay (applyDiffs r.before patch.diffs) rest patch.diffs
        .ok (bumpMeta doc patch p.1 p.2)
      else .error .mismatchedSequence
    else
      let p := replay (applyDiffs r.before patch.diffs) (r :: rest) patch.diffs
      .ok (bumpMeta doc patch p.1 p.2)

/-- The document produced by a successful `applyPatch`, defaulting to the
input on error. -/
def applyPatchOk (doc : Doc) (patch : Patch) : Doc :=
  (applyPatch doc patch).toOption.getD doc

/-! ## Materialised view (spec §3, "Materialised view") -/

/-- The plain-data projection of the CRDT presented to applications:
primitives, timestamps, counters, and nested maps and lists with links
resolved (spec glossary, "Materialised view"). -/
inductive MVal where
  | null : MVal
  | bool : Bool → MVal
  | int : Int → MVal
  | str : String → MVal
  | timestamp : Int → MVal
  | counter : Int → MVal
  | map : List (String × MVal) → MVal
  | list : List MVal → MVal
deriving Repr

/-- Materialise a value against a cache, resolving object links up to the
given depth (the cache of a well-formed document is acyclic, so any fuel
larger than the cache suffices). -/
def matValue (cache : List (ObjectId × Node)) : Nat → Value → MVal
  | _, .null => .null
  | _, .bool b => .bool b
  | _, .int n => .int n
  | _, .str s => .str s
  | _, .timestamp t => .timestamp t
  | _, .counter n => .counter n
  | 0, .objRef _ => .null
  | n + 1, .objRef id =>
    match alookup id cache with
    | some (.mapNode fs) => .map (fs.map fun p => (p.1, matValue cache n p.2))
    | some (.listNode es) => .list (es.map fun p => matValue cache n p.2)
    | none => .null

/-- The materialised view of a whole document: the root object resolved
through the cache. -/
def render (doc : Doc) : MVal :=
  matValue doc.snap.cache (doc.snap.cache.length + 1) (.objRef ROOT_ID)

/-- The raw conflict bucket for `(obj, key)`: each losing actor's last
written losing value, unresolved (spec §4.3, "Conflicts"). -/
def getConflictsRaw (doc : Doc) (obj : ObjectId) (key : String) :
    Option (List (ActorId × Value)) :=
  (alookup obj doc.snap.conflicts).bind (alookup key)

/-- `getConflicts(doc, key)` on object `obj` (spec §6): the conflict bucket
with each losing value materialised through the cache, or nothing. -/
def getConflicts (doc : Doc) (obj : ObjectId) (key : String) :
    Option (List (ActorId × MVal)) :=
  (getConflictsRaw doc obj key).map
    (List.map fun p => (p.1, matValue doc.snap.cache (doc.snap.cache.length + 1) p.2))

/-! ## UUIDs and document lifecycle (spec §3, §6) -/

/-- The lowercase hexadecimal digit with the given value. -/
def hexChar (n : Nat) : Char :=
  match n with
  | 0 => '0'
  | 1 => '1'
  | 2 => '2'
  | 3 => '3'
  | 4 => '4'
  | 5 => '5'
  | 6 => '6'
  | 7 => '7'
  | 8 => '8'
  | 9 => '9'
  | 10 => 'a'
  | 11 => 'b'
  | 12 => 'c'
  | 13 => 'd'
  | 14 => 'e'
  | _ => 'f'

/-- Whether a character is a lowercase hexadecimal digit (the character class
`[0-9a-f]` of the test file's `UUID_PATTERN`). -/
def isHexChar (c : Char) : Bool :=
  ('0' ≤ c && c ≤ '9') || ('a' ≤ c && c ≤ 'f')

/-- `len` lowercase hex digits drawn from the seed. -/
def hexChars : Nat → Nat → List Char
  | 0, _ => []
  | len + 1, n => hexChar (n % 16) :: hexChars len (n / 16)

/-- Consume exactly `n` lowercase hex digits, returning the remainder. -/
def chewHex : Nat → List Char → Option (List Char)
  | 0, cs => some cs
  | _ + 1, [] => none
  | n + 1, c :: cs => if isHexChar c then chewHex n cs else none

/-- Consume a hyphen, returning the remainder. -/
def chewDash : List Char → Option (List Char)
  | '-' :: cs => some cs
  | _ => none

/-- The test file's `UUID_PATTERN`
(`/^[0-9a-f]{8}(-[0-9a-f]{4}){3}-[0-9a-f]{12}$/`): five hyphen-separated
groups of 8, 4, 4, 4 and 12 lowercase hex digits. -/
def uuidCheck (s : String) : Bool :=
  match
    (chewHex 8 s.data).bind chewDash |>.bind (chewHex 4) |>.bind chewDash
      |>.bind (chewHex 4) |>.bind chewDash |>.bind (chewHex 4) |>.bind chewDash
      |>.bind (chewHex 12) with
  | some [] => true
  | _ => false

/-- Modelled from the spec: fresh actor-id generation (spec §3: an `ActorId`
is a 128-bit UUID string; the `uuid()` generator is not under `src/`).
Generation is modelled as a deterministic function of a seed supplied by the
environment, producing a lowercase hyphenated hex string. -/
def genUuid (seed : Nat) : String :=
  ⟨hexChars 8 seed ++ '-' :: hexChars 4 (seed / 2 ^ 32) ++ '-' ::
    hexChars 4 (seed / 2 ^ 48) ++ '-' :: hexChars 4 (seed / 2 ^ 64) ++ '-' ::
    hexChars 12 (seed / 2 ^ 80)⟩

/-- The argument forms of `init` (spec §6: `init(actorId? | {deferActorId?,
actorId?})`). -/
inductive InitOpts where
  | noArgs : InitOpts
  | withActor : ActorId → InitOpts
  | deferred : InitOpts
deriving DecidableEq, Repr

/-- A fresh document with the given (possibly deferred) actor id: empty root
map, `seq = 0`, empty deps, empty queue (spec §3, "Lifecycle"). -/
def initDoc (a : Option ActorId) : Doc :=
  ⟨a, 0, [], ⟨[(ROOT_ID, .mapNode [])], []⟩, [], []⟩

/-- Modelled from the spec: `init` (spec §6; the implementation is not under
`src/`).  With no arguments a fresh actor id is generated; with
`deferActorId: true` the actor id is left unset. -/
def init (opts : InitOpts) (seed : Nat) : Doc :=
  match opts with
  | .noArgs => initDoc (some (genUuid seed))
  | .withActor a => initDoc (some a)
  | .deferred => initDoc none

/-- `getActorId` (spec §6). -/
def getActorId (doc : Doc) : Option ActorId :=
  doc.actorId

/-- `setActorId` (spec §6). -/
def setActorId (doc : Doc) (a : ActorId) : Doc :=
  { doc with actorId := some a }

/-! ## Concrete identifiers and keys used by the test scenarios -/

def exA : ActorId := "aaaaaaaa-aaaa-aaaa-aaaa-aaaaaaaaaaaa"

def exB : ActorId := "bbbbbbbb-bbbb-bbbb-bbbb-bbbbbbbbbbbb"

def exRemote1 : ActorId := "cccccccc-cccc-cccc-cccc-cccccccccccc"

def exRemote2 : ActorId := "dddddddd-dddd-dddd-dddd-dddddddddddd"

def exActorX : ActorId := "eeeeeeee-eeee-eeee-eeee-eeeeeeeeeeee"

def exBirdsId : ObjectId := "11111111-1111-1111-1111-111111111111"

def exBirds2Id : ObjectId := "22222222-2222-2222-2222-222222222222"

def exMammalsId : ObjectId := "33333333-3333-3333-3333-333333333333"

def kBird : String := "bird"

def kBirds : String := "birds"

def kWrens : String := "wrens"

def kBlackbirds : String := "blackbirds"

def kPartridges : String := "partridges"

def kPheasants : String := "pheasants"

def kMammals : String := "mammals"

def kBadgers : String := "badgers"

def kSparrows : String := "sparrows"

def kCounterField : String := "counter"

def sGoldfinch : String := "goldfinch"

def sChaffinch : String := "chaffinch"

def sGreenfinch : String := "greenfinch"

def sBullfinch : String := "bullfinch"

def sWagtail : String := "wagtail"

def sRobin : String := "robin"

def noActor : ActorId := ""

/-- The empty request, used as a total default when destructing queues. -/
def emptyRequest : Request :=
  ⟨noActor, 0, [], [], [], ⟨[], []⟩⟩

/-- The head of a document's request queue (total, defaulting to the empty
request). -/
def reqHead (doc : Doc) : Request :=
  match doc.requests with
  | r :: _ => r
  | [] => emptyRequest

/-- The tail of a document's request queue. -/
def reqTail (doc : Doc) : List Request :=
  doc.requests.tail

/-- The document produced by a successful `changeCmds`, defaulting to the
input on error. -/
def changeOk (doc : Doc) (cmds : List Cmd) : Doc :=
  match changeCmds doc cmds with
  | .ok p => p.1
  | .error _ => doc

/-! ## General lemmas about the embedding -/

theorem request_view_update (r : Request) (b : Snap) (ds : List Diff) :
    Request.view { r with before := b, diffs := ds } = Request.view r := rfl

theorem replay_views (patchDiffs : List Diff) (reqs : List Request) (auth : Snap)
    (acc : List Request) :
    ((reqs.foldl (replayStep patchDiffs) (auth, acc)).2).map Request.view
      = acc.map Request.view ++ reqs.map Request.view := by
  induction reqs generalizing auth acc with
  | nil => simp
  | cons r rs ih =>
    simp [List.foldl_cons, replayStep, ih, request_view_update]

/-! ## C5 — a no-op change returns the input document -/

/-- C5: for every document, calling `change` with a callback that records no
ops returns the input document itself (the very same value, the shallow
embedding of referential identity) and no change request. -/
theorem change_noop_returns_input (doc : Doc) :
    changeCmds doc [] = .ok (doc, none) := by
  cases h : doc.actorId <;>
    simp [changeCmds, runCmds, h, List.foldlM, pure, Except.pure]

/-! ## C7 — out-of-order acknowledgment patches are rejected -/

/-- C7: for every document whose request queue has a head with sequence
number `r.seq`, applying a patch carrying this document's own actor id and a
different sequence number fails with `MismatchedSequence`; no document is
produced, so the input is left unmodified. -/
theorem applyPatch_mismatched_seq (doc : Doc) (patch : Patch) (r : Request)
    (rest : List Request) (a : ActorId) (s : Nat)
    (hreq : doc.requests = r :: rest)
    (hactor : doc.actorId = some a)
    (hpactor : patch.actor = some a)
    (hseq : patch.seq = some s)
    (hne : s ≠ r.seq) :
    applyPatch doc patch = .error .mismatchedSequence := by
  simp [applyPatch, hreq, hactor, hpactor, hseq, hne]

/-- Input for the C7 witness: a document with two pending requests
(`blackbirds`, then `partridges`), as in the test "should not allow request
patches to be applied out of order". -/
def exQueueDoc : Doc :=
  changeOk (changeOk (initDoc (some exA)) [.setKey ROOT_ID kBlackbirds (.int 24)])
    [.setKey ROOT_ID kPartridges (.int 1)]

/-- The out-of-order acknowledgment patch of the C7 witness: `seq = 2` while
the queue head has `seq = 1`. -/
def exBadPatch : Patch :=
  ⟨some exA, some 2, none, none, [.setMap ROOT_ID kPartridges (.int 1) []]⟩

theorem applyPatch_mismatched_seq_witness :
    exQueueDoc.requests = reqHead exQueueDoc :: reqTail exQueueDoc
    ∧ exQueueDoc.actorId = some exA
    ∧ exBadPatch.actor = some exA
    ∧ exBadPatch.seq = some 2
    ∧ (2 : Nat) ≠ (reqHead exQueueDoc).seq
    ∧ applyPatch exQueueDoc exBadPatch = .error .mismatchedSequence :=
  ⟨by decide, by decide, by decide, by decide, by decide,
   applyPatch_mismatched_seq exQueueDoc exBadPatch (reqHead exQueueDoc)
     (reqTail exQueueDoc) exA 2 (by decide) (by decide) (by decide) (by decide) (by decide)⟩

/-! ## C10 — init assigns a fresh valid UUID unless deferred -/

theorem isHexChar_hexChar (n : Nat) : isHexChar (hexChar n) = true := by
  unfold hexChar
  split <;> decide

theorem chewHex_hexChars (len : Nat) (n : Nat) (rest : List Char) :
    chewHex len (hexChars len n ++ rest) = some rest := by
  induction len generalizing n with
  | zero => rfl
  | succ k ih => simp [hexChars, chewHex, isHexChar_hexChar, ih]

theorem chewHex_hexChars_nil (len : Nat) (n : Nat) :
    chewHex len (hexChars len n) = some [] := by
  have h := chewHex_hexChars len n []
  simpa using h

theorem uuidCheck_genUuid (seed : Nat) : uuidCheck (genUuid seed) = true := by
  simp [uuidCheck, genUuid, chewHex_hexChars, chewHex_hexChars_nil, chewDash,
    Option.bind]

/-- C10: `init` with no arguments assigns a freshly generated actor id that
is a valid lowercase hyphenated UUID (it matches the test file's
`UUID_PATTERN`); `getActorId` returns nothing exactly when `init` was called
with `deferActorId: true`, and a subsequent `setActorId` makes it return the
assigned id. -/
theorem init_actorId_spec (seed : Nat) (a : ActorId) (opts : InitOpts) :
    uuidCheck (genUuid seed) = true
    ∧ getActorId (init .noArgs seed) = some (genUuid seed)
    ∧ (getActorId (init opts seed) = none ↔ opts = .deferred)
    ∧ getActorId (setActorId (init .deferred seed) a) = some a := by
  refine ⟨uuidCheck_genUuid seed, rfl, ?_, rfl⟩
  cases opts <;> simp [init, initDoc, getActorId]

/-! ## C3 — acknowledgment pops exactly the head; remote patches keep the
queue and re-apply it on top -/

theorem bumpMeta_requests (doc : Doc) (patch : Patch) (s : Snap) (reqs : List Request) :
    (bumpMeta doc patch s reqs).requests = reqs := rfl

theorem bumpMeta_snap (doc : Doc) (patch : Patch) (s : Snap) (reqs : List Request) :
    (bumpMeta doc patch s reqs).snap = s := rfl

/-- C3: for every document with a non-empty request queue, `applyPatch` pops
exactly one request when the patch acknowledges the head (its actor is the
document's own and its `seq` equals the head's), leaving the tail's changes;
a patch whose actor differs from the document's actor id leaves the queue's
changes untouched, and the rendered snapshot is the still-pending requests
re-applied on top of the new authoritative state. -/
theorem applyPatch_queue_reconciliation (doc : Doc) (patch : Patch) (r : Request)
    (rest : List Request)
    (hreq : doc.requests = r :: rest) :
    (patch.actor = doc.actorId → patch.actor.isSome = true → patch.seq = some r.seq →
      ∃ d, applyPatch doc patch = .ok d
        ∧ d.requests.map Request.view = rest.map Request.view)
    ∧ (patch.actor ≠ doc.actorId →
      ∃ d, applyPatch doc patch = .ok d
        ∧ d.requests.map Request.view = (r :: rest).map Request.view
        ∧ d.snap = (replay (applyDiffs r.before patch.diffs) (r :: rest) patch.diffs).1) := by
  constructor
  · intro heq hsome hseq
    have hsome' : doc.actorId.isSome = true := by
      rw [← heq]
      exact hsome
    refine ⟨bumpMeta doc patch
      (replay (applyDiffs r.before patch.diffs) rest patch.diffs).1
      (replay (applyDiffs r.before patch.diffs) rest patch.diffs).2, ?_, ?_⟩
    · simp [applyPatch, hreq, hseq, hsome, heq]
      intro h
      rw [h] at hsome'
      simp at hsome'
    · rw [bumpMeta_requests, replay, replay_views]
      simp
  · intro hne
    refine ⟨bumpMeta doc patch
      (replay (applyDiffs r.before patch.diffs) (r :: rest) patch.diffs).1
      (replay (applyDiffs r.before patch.diffs) (r :: rest) patch.diffs).2, ?_, ?_, ?_⟩
    · simp [applyPatch, hreq, hne]
    · rw [bumpMeta_requests, replay, replay_views]
      simp
    · simp [bumpMeta_snap]

/-- The acknowledgment patch of the C3 witness (`actor = exA, seq = 1`, as in
the test "should remove pending requests once handled"). -/
def exAckPatch : Patch :=
  ⟨some exA, some 1, none, none, [.setMap ROOT_ID kBlackbirds (.int 24) []]⟩

/-- The remote patch of the C3 witness (another actor's write, as in the test
"should leave the request queue unchanged on remote patches"). -/
def exRemotePatch : Patch :=
  ⟨some exB, some 1, none, none, [.setMap ROOT_ID kPheasants (.int 2) []]⟩

theorem applyPatch_queue_reconciliation_witness :
    exQueueDoc.requests = reqHead exQueueDoc :: reqTail exQueueDoc
    ∧ (∃ d, applyPatch exQueueDoc exAckPatch = .ok d
        ∧ d.requests.map Request.view = (reqTail exQueueDoc).map Request.view)
    ∧ (∃ d, applyPatch exQueueDoc exRemotePatch = .ok d
        ∧ d.requests.map Request.view
            = (reqHead exQueueDoc :: reqTail exQueueDoc).map Request.view
        ∧ d.snap = (replay (applyDiffs (reqHead exQueueDoc).before exRemotePatch.diffs)
            (reqHead exQueueDoc :: reqTail exQueueDoc) exRemotePatch.diffs).1) :=
  ⟨by decide,
   (applyPatch_queue_reconciliation exQueueDoc exAckPatch (reqHead exQueueDoc)
      (reqTail exQueueDoc) (by decide)).1 (by decide) (by decide) (by decide),
   (applyPatch_queue_reconciliation exQueueDoc exRemotePatch (reqHead exQueueDoc)
      (reqTail exQueueDoc) (by decide)).2 (by decide)⟩

/-! ## C4 — a non-empty change commits with `seq + 1` and deps minus the
actor's own component -/

/-- C4: for every document, a change whose callback records a non-empty op
list commits with sequence number `doc.seq + 1` (also recorded on the new
document), and its emitted deps are the authoritative deps clock with this
actor's own component removed. -/
theorem change_seq_and_deps (doc : Doc) (cmds : List Cmd) (a : ActorId) (ctx : Ctx)
    (ha : doc.actorId = some a)
    (hrun : runCmds a doc cmds = .ok ctx)
    (hops : ctx.ops ≠ []) :
    ((changeCmds doc cmds).toOption.bind Prod.snd).map Request.seq = some (doc.seq + 1)
    ∧ ((changeCmds doc cmds).toOption.bind Prod.snd).map Request.deps
        = some (aremove a doc.deps)
    ∧ (changeCmds doc cmds).toOption.map (fun p => p.1.seq) = some (doc.seq + 1) := by
  simp [changeCmds, ha, hrun, hops, Except.toOption]

/-- The causal patch of the C4 witness: `clock {local:4, remote1:11,
remote2:41}` and `deps {local:4, remote2:41}`, as in the test "should use
dependencies and sequence number from the backend". -/
def exDepsPatch : Patch :=
  ⟨none, none, some [(exA, 4), (exRemote1, 11), (exRemote2, 41)],
   some [(exA, 4), (exRemote2, 41)], [.setMap ROOT_ID kBlackbirds (.int 24) []]⟩

/-- The document of the C4 witness after absorbing the causal patch. -/
def exDepsDoc : Doc :=
  applyPatchOk (initDoc (some exA)) exDepsPatch

/-- The single-command callback of the C4 witness (`d.partridges = 1`). -/
def exPartridgeCmds : List Cmd :=
  [.setKey ROOT_ID kPartridges (.int 1)]

/-- The context produced by the C4 witness's callback. -/
def exDepsCtx : Ctx :=
  match runCmds exA exDepsDoc exPartridgeCmds with
  | .ok c => c
  | .error _ => ⟨⟨[], []⟩, [], [], []⟩

theorem change_seq_and_deps_witness :
    exDepsDoc.actorId = some exA
    ∧ runCmds exA exDepsDoc exPartridgeCmds = .ok exDepsCtx
    ∧ exDepsCtx.ops ≠ []
    ∧ exDepsDoc.seq + 1 = 5
    ∧ aremove exA exDepsDoc.deps = [(exRemote2, 41)]
    ∧ ((changeCmds exDepsDoc exPartridgeCmds).toOption.bind Prod.snd).map Request.seq
        = some (exDepsDoc.seq + 1)
    ∧ ((changeCmds exDepsDoc exPartridgeCmds).toOption.bind Prod.snd).map Request.deps
        = some (aremove exA exDepsDoc.deps) :=
  ⟨by decide, by rfl, by decide, by decide, by decide,
   (change_seq_and_deps exDepsDoc exPartridgeCmds exA exDepsCtx (by decide) (by rfl)
      (by decide)).1,
   (change_seq_and_deps exDepsDoc exPartridgeCmds exA exDepsCtx (by decide) (by rfl)
      (by decide)).2.1⟩

/-! ## C6 — assignment plus in-place increment of a fresh counter coalesces
into one plain `set` -/

/-- C6: for every change block in which a key is assigned a fresh
`Counter(n)` and then incremented in place by `d`, the emitted op list is a
single `set` op for that key with value `n + d` and no `datatype` field. -/
theorem change_counter_coalesce (doc : Doc) (obj : ObjectId) (key : String) (a : ActorId)
    (fs : List (String × Value)) (n d : Int)
    (ha : doc.actorId = some a)
    (hobj : alookup obj doc.snap.cache = some (.mapNode fs))
    (hkey : ∀ c : Int, alookup key fs ≠ some (.counter c)) :
    ((changeCmds doc [.setKey obj key (.counter n), .incKey obj key d]).toOption.bind
      Prod.snd).map Request.ops = some [.set obj key (.int (n + d)) none] := by
  rcases hv : alookup key fs with _ | v
  · simp [changeCmds, ha, runCmds, List.foldlM, applyCmd, hobj, hv, opValue,
      coalesceSet, coalesceInc, bumpSet, alookup_aset_self, Except.toOption,
      Op.isSetOn, bind, Except.bind, pure, Except.pure]
  · cases v
    case counter c => exact absurd hv (hkey c)
    all_goals
      simp [changeCmds, ha, runCmds, List.foldlM, applyCmd, hobj, hv, opValue,
        coalesceSet, coalesceInc, bumpSet, alookup_aset_self, Except.toOption,
        Op.isSetOn, bind, Except.bind, pure, Except.pure]

theorem change_counter_coalesce_witness :
    (initDoc (some exA)).actorId = some exA
    ∧ alookup ROOT_ID (initDoc (some exA)).snap.cache = some (.mapNode [])
    ∧ (∀ c : Int, alookup kWrens ([] : List (String × Value)) ≠ some (.counter c))
    ∧ ((changeCmds (initDoc (some exA))
          [.setKey ROOT_ID kWrens (.counter 1), .incKey ROOT_ID kWrens 2]).toOption.bind
        Prod.snd).map Request.ops = some [.set ROOT_ID kWrens (.int 3) none] :=
  ⟨by decide, by decide, by simp, by
    have h := change_counter_coalesce (initDoc (some exA)) ROOT_ID kWrens exA [] 1 2
      (by decide) (by decide) (by simp)
    simpa using h⟩

/-! ## C9 — assigning atop a counter fails with `CannotOverwriteCounter` -/

/-- C9: for every document, a change whose callback assigns any value to a
map key or a list index currently holding a `Counter` fails with
`CannotOverwriteCounter`; no document is produced, so the input is left
unmodified. -/
theorem change_cannot_overwrite_counter (doc : Doc) (a : ActorId) (obj : ObjectId)
    (key : String) (fs : List (String × Value)) (es : List (ElemId × Value))
    (idx : Nat) (eid : ElemId) (v : Value) (c : Int)
    (ha : doc.actorId = some a) :
    (alookup obj doc.snap.cache = some (.mapNode fs) →
      alookup key fs = some (.counter c) →
      changeCmds doc [.setKey obj key v] = .error .cannotOverwriteCounter)
    ∧ (alookup obj doc.snap.cache = some (.listNode es) →
      es.get? idx = some (eid, .counter c) →
      changeCmds doc [.setIdx obj idx v] = .error .cannotOverwriteCounter) := by
  constructor
  · intro hobj hkey
    simp [changeCmds, ha, runCmds, List.foldlM, applyCmd, hobj, hkey, bind, Except.bind]
  · intro hobj hidx
    rw [List.get?_eq_getElem?] at hidx
    simp [changeCmds, ha, runCmds, List.foldlM, applyCmd, hobj, hidx, bind, Except.bind]

/-- Input for the C9 witness: a document holding a counter at a root key and
a one-element list of counters, as in the test "should refuse to overwrite a
property with a counter value". -/
def exCounterDoc : Doc :=
  changeOk (initDoc (some exA))
    [.setKey ROOT_ID kCounterField (.counter 0), .newList ROOT_ID kBirds exBirdsId [.counter 0]]

/-- The root fields of the C9 witness document. -/
def exCounterRootFs : List (String × Value) :=
  [(kCounterField, .counter 0), (kBirds, .objRef exBirdsId)]

/-- The list elements of the C9 witness document. -/
def exCounterEs : List (ElemId × Value) :=
  [(⟨exA, 1⟩, .counter 0)]

theorem change_cannot_overwrite_counter_witness :
    exCounterDoc.actorId = some exA
    ∧ alookup ROOT_ID exCounterDoc.snap.cache = some (.mapNode exCounterRootFs)
    ∧ alookup kCounterField exCounterRootFs = some (.counter 0)
    ∧ changeCmds exCounterDoc [.setKey ROOT_ID kCounterField (.int 3)]
        = .error .cannotOverwriteCounter
    ∧ alookup exBirdsId exCounterDoc.snap.cache = some (.listNode exCounterEs)
    ∧ exCounterEs.get? 0 = some (⟨exA, 1⟩, .counter 0)
    ∧ changeCmds exCounterDoc [.setIdx exBirdsId 0 (.int 3)]
        = .error .cannotOverwriteCounter :=
  ⟨by decide, by decide, by decide,
   (change_cannot_overwrite_counter exCounterDoc exA ROOT_ID kCounterField exCounterRootFs
      exCounterEs 0 ⟨exA, 1⟩ (.int 3) 0 (by decide)).1 (by decide) (by decide),
   by decide, by decide,
   (change_cannot_overwrite_counter exCounterDoc exA exBirdsId kCounterField exCounterRootFs
      exCounterEs 0 ⟨exA, 1⟩ (.int 3) 0 (by decide)).2 (by decide) (by decide)⟩

/-! ## C8 — objects untouched by a patch's diffs keep their cache entry

The frame property is proved for every well-formed document, including
documents with in-flight optimistic requests.  The machinery: the action of
a diff on a single cache entry (`applyDiffEntry`), locality of `applyDiffs`
(an entry depends only on the diffs touching its object), invariance of the
index transformation on objects the patch does not insert into, and the
`coherent` well-formedness invariant (the rendered cache is the head
request's authoritative base with all pending optimistic diffs re-applied),
which `initDoc` establishes and `changeCmds`/`applyPatch` preserve. -/

theorem aset_aset_self {α β : Type} [DecidableEq α] (k : α) (v w : β) (l : List (α × β)) :
    aset k v (aset k w l) = aset k v l := by
  induction l with
  | nil => simp [aset]
  | cons hd tl ih =>
    obtain ⟨k', v'⟩ := hd
    by_cases h : k = k' <;> simp [aset, h, ih]

/-- The action of one backend diff on the cache entry of its own object
(spec §4.3, diff table, restricted to a single object). -/
def applyDiffEntry (d : Diff) (e : Option Node) : Option Node :=
  match d with
  | .createMap _ => some (.mapNode [])
  | .createList _ => some (.listNode [])
  | .setMap _ key v _ =>
    match e with
    | some (.mapNode fs) => some (.mapNode (aset key v fs))
    | _ => e
  | .setList _ idx v =>
    match e with
    | some (.listNode es) =>
      match es.get? idx with
      | some p => some (.listNode (es.take idx ++ (p.1, v) :: es.drop (idx + 1)))
      | none => e
    | _ => e
  | .insert _ idx v eid =>
    match e with
    | some (.listNode es) =>
      if idx ≤ es.length then some (.listNode (es.take idx ++ (eid, v) :: es.drop idx))
      else e
    | _ => e
  | .removeMap _ key =>
    match e with
    | some (.mapNode fs) => some (.mapNode (aremove key fs))
    | _ => e
  | .removeList _ idx =>
    match e with
    | some (.listNode es) => some (.listNode (es.take idx ++ es.drop (idx + 1)))
    | _ => e

theorem applyDiffCache_other (cache : List (ObjectId × Node)) (d : Diff) (id : ObjectId)
    (h : id ≠ d.obj) :
    alookup id (applyDiffCache cache d) = alookup id cache := by
  cases d <;>
    simp only [Diff.obj] at h <;>
    unfold applyDiffCache <;>
    (repeat' split) <;>
    simp_all [alookup_aset_ne]

theorem applyDiffCache_self (cache : List (ObjectId × Node)) (d : Diff) :
    alookup d.obj (applyDiffCache cache d) = applyDiffEntry d (alookup d.obj cache) := by
  cases d with
  | createMap o => simp [applyDiffCache, applyDiffEntry, Diff.obj, alookup_aset_self]
  | createList o => simp [applyDiffCache, applyDiffEntry, Diff.obj, alookup_aset_self]
  | setMap o key v cfl =>
    rcases hl : alookup o cache with _ | n
    · simp [applyDiffCache, applyDiffEntry, Diff.obj, hl]
    · cases n <;> simp [applyDiffCache, applyDiffEntry, Diff.obj, hl, alookup_aset_self]
  | setList o idx v =>
    rcases hl : alookup o cache with _ | n
    · simp [applyDiffCache, applyDiffEntry, Diff.obj, hl]
    · cases n with
      | mapNode fs => simp [applyDiffCache, applyDiffEntry, Diff.obj, hl]
      | listNode es =>
        rcases hg : es[idx]? with _ | p <;>
          simp [applyDiffCache, applyDiffEntry, Diff.obj, hl, hg, alookup_aset_self]
  | insert o idx v eid =>
    rcases hl : alookup o cache with _ | n
    · simp [applyDiffCache, applyDiffEntry, Diff.obj, hl]
    · cases n with
      | mapNode fs => simp [applyDiffCache, applyDiffEntry, Diff.obj, hl]
      | listNode es =>
        by_cases hle : idx ≤ es.length <;>
          simp [applyDiffCache, applyDiffEntry, Diff.obj, hl, hle, alookup_aset_self]
  | removeMap o key =>
    rcases hl : alookup o cache with _ | n
    · simp [applyDiffCache, applyDiffEntry, Diff.obj, hl]
    · cases n <;> simp [applyDiffCache, applyDiffEntry, Diff.obj, hl, alookup_aset_self]
  | removeList o idx =>
    rcases hl : alookup o cache with _ | n
    · simp [applyDiffCache, applyDiffEntry, Diff.obj, hl]
    · cases n <;> simp [applyDiffCache, applyDiffEntry, Diff.obj, hl, alookup_aset_self]

/-- The diffs of a list that touch a given object. -/
def diffsOn (id : ObjectId) (ds : List Diff) : List Diff :=
  ds.filter (fun d => d.obj == id)

/-- Fold the per-entry actions of a diff list over one cache entry. -/
def applyEntries (e : Option Node) (ds : List Diff) : Option Node :=
  ds.foldl (fun acc d => applyDiffEntry d acc) e

theorem diffsOn_append (id : ObjectId) (l1 l2 : List Diff) :
    diffsOn id (l1 ++ l2) = diffsOn id l1 ++ diffsOn id l2 := by
  simp [diffsOn, List.filter_append]

theorem applyEntries_append (e : Option Node) (l1 l2 : List Diff) :
    applyEntries e (l1 ++ l2) = applyEntries (applyEntries e l1) l2 := by
  simp [applyEntries, List.foldl_append]

theorem diffsOn_untouched (id : ObjectId) (ds : List Diff)
    (h : ∀ d ∈ ds, id ≠ d.obj) : diffsOn id ds = [] := by
  induction ds with
  | nil => rfl
  | cons d rest ih =>
    have h1 : ¬(d.obj == id) = true := by
      simp only [beq_iff_eq]
      exact fun he => (h d (List.mem_cons_self d rest)) he.symm
    have h2 : ∀ x ∈ rest, id ≠ x.obj := fun x hx => h x (List.mem_cons_of_mem d hx)
    simp only [diffsOn, List.filter_cons, if_neg h1]
    exact ih h2

theorem alookup_cacheFold (ds : List Diff) :
    ∀ (cache : List (ObjectId × Node)) (id : ObjectId),
      alookup id (ds.foldl applyDiffCache cache)
        = applyEntries (alookup id cache) (diffsOn id ds) := by
  induction ds with
  | nil => intro cache id; rfl
  | cons d rest ih =>
    intro cache id
    by_cases h : d.obj = id
    · subst h
      calc alookup d.obj (rest.foldl applyDiffCache (applyDiffCache cache d))
          = applyEntries (alookup d.obj (applyDiffCache cache d)) (diffsOn d.obj rest) :=
            ih (applyDiffCache cache d) d.obj
        _ = applyEntries (applyDiffEntry d (alookup d.obj cache)) (diffsOn d.obj rest) := by
            rw [applyDiffCache_self]
        _ = applyEntries (alookup d.obj cache) (diffsOn d.obj (d :: rest)) := by
            simp [diffsOn, applyEntries, List.filter_cons]
    · calc alookup id (rest.foldl applyDiffCache (applyDiffCache cache d))
          = applyEntries (alookup id (applyDiffCache cache d)) (diffsOn id rest) :=
            ih (applyDiffCache cache d) id
        _ = applyEntries (alookup id cache) (diffsOn id (d :: rest)) := by
            rw [applyDiffCache_other cache d id (fun he => h he.symm)]
            have h1 : ¬(d.obj == id) = true := by
              simp only [beq_iff_eq]
              exact h
            simp only [diffsOn, List.filter_cons, if_neg h1]

theorem alookup_applyDiffs (s : Snap) (ds : List Diff) (id : ObjectId) :
    alookup id (applyDiffs s ds).cache = applyEntries (alookup id s.cache) (diffsOn id ds) := by
  rw [applyDiffs_cache, alookup_cacheFold]

theorem transformDiff_obj (pd : List Diff) (d : Diff) :
    (transformDiff pd d).obj = d.obj := by
  cases d <;> rfl

theorem insertShift_untouched (pd : List Diff) (id : ObjectId) (i : Nat)
    (h : ∀ p ∈ pd, id ≠ p.obj) : insertShift pd id i = i := by
  unfold insertShift
  have hz : (pd.filter fun d =>
      match d with
      | .insert o j _ _ => o = id && j ≤ i
      | _ => false) = [] := by
    induction pd with
    | nil => rfl
    | cons p rest ih =>
      have h1 := h p (List.mem_cons_self p rest)
      have h2 : ∀ x ∈ rest, id ≠ x.obj := fun x hx => h x (List.mem_cons_of_mem p hx)
      rw [List.filter_cons, if_neg, ih h2]
      cases p <;> simp only [Diff.obj] at h1 <;> simp_all <;>
        exact fun he => absurd he.symm h1
  rw [hz]
  rfl

theorem transformDiff_untouched (pd : List Diff) (id : ObjectId) (d : Diff)
    (hobj : d.obj = id) (h : ∀ p ∈ pd, id ≠ p.obj) :
    transformDiff pd d = d := by
  cases d with
  | insert o i v e =>
    simp only [Diff.obj] at hobj
    subst hobj
    simp [transformDiff, insertShift_untouched pd o i h]
  | setList o i v =>
    simp only [Diff.obj] at hobj
    subst hobj
    simp [transformDiff, insertShift_untouched pd o i h]
  | removeList o i =>
    simp only [Diff.obj] at hobj
    subst hobj
    simp [transformDiff, insertShift_untouched pd o i h]
  | createMap o => rfl
  | createList o => rfl
  | setMap o key v cfl => rfl
  | removeMap o key => rfl

theorem diffsOn_transformDiffs (pd ds : List Diff) (id : ObjectId)
    (h : ∀ p ∈ pd, id ≠ p.obj) :
    diffsOn id (transformDiffs pd ds) = diffsOn id ds := by
  induction ds with
  | nil => rfl
  | cons d rest ih =>
    show diffsOn id (transformDiff pd d :: (transformDiffs pd rest)) = _
    by_cases hobj : d.obj = id
    · have hb : ((transformDiff pd d).obj == id) = true := by
        simp [transformDiff_obj, hobj]
      simp only [diffsOn, List.filter_cons, hb, if_pos, transformDiff_untouched pd id d hobj h]
      rw [show (d.obj == id) = true by simp [hobj]]
      simp only [if_pos]
      exact congrArg (d :: ·) (ih)
    · have hb : ((transformDiff pd d).obj == id) = false := by
        simp [transformDiff_obj, hobj]
      simp only [diffsOn, List.filter_cons, hb]
      rw [show (d.obj == id) = false by simp [hobj]]
      simp only [Bool.false_eq_true, if_neg, ite_false]
      exact ih

/-- Re-apply the stored optimistic diffs of a request queue on top of a
snapshot (spec §4.3, "Optimistic replay"). -/
def replayPlain (s : Snap) (reqs : List Request) : Snap :=
  reqs.foldl (fun acc r => applyDiffs acc r.diffs) s

/-- All stored diffs of a request queue, in replay order. -/
def reqDiffs (reqs : List Request) : List Diff :=
  (reqs.map Request.diffs).join

theorem reqDiffs_cons (r : Request) (rest : List Request) :
    reqDiffs (r :: rest) = r.diffs ++ reqDiffs rest := by
  simp [reqDiffs]

theorem replayPlain_append (s : Snap) (l1 l2 : List Request) :
    replayPlain s (l1 ++ l2) = replayPlain (replayPlain s l1) l2 := by
  simp [replayPlain, List.foldl_append]

theorem alookup_replayPlain (s : Snap) (reqs : List Request) (id : ObjectId) :
    alookup id (replayPlain s reqs).cache
      = applyEntries (alookup id s.cache) (diffsOn id (reqDiffs reqs)) := by
  induction reqs generalizing s with
  | nil => rfl
  | cons r rest ih =>
    calc alookup id (replayPlain (applyDiffs s r.diffs) rest).cache
        = applyEntries (alookup id (applyDiffs s r.diffs).cache)
            (diffsOn id (reqDiffs rest)) := ih (applyDiffs s r.diffs)
      _ = applyEntries (applyEntries (alookup id s.cache) (diffsOn id r.diffs))
            (diffsOn id (reqDiffs rest)) := by rw [alookup_applyDiffs]
      _ = applyEntries (alookup id s.cache) (diffsOn id (reqDiffs (r :: rest))) := by
          rw [reqDiffs_cons, diffsOn_append, applyEntries_append]

theorem replay_fst (pd : List Diff) (reqs : List Request) :
    ∀ (auth : Snap) (acc : List Request),
      (reqs.foldl (replayStep pd) (auth, acc)).1
        = reqs.foldl (fun s r => applyDiffs s (transformDiffs pd r.diffs)) auth := by
  induction reqs with
  | nil => intro auth acc; rfl
  | cons r rest ih =>
    intro auth acc
    simp only [List.foldl_cons, replayStep]
    exact ih _ _

theorem alookup_replayTransformed (pd : List Diff) (reqs : List Request) (id : ObjectId)
    (h : ∀ p ∈ pd, id ≠ p.obj) :
    ∀ auth : Snap,
      alookup id ((reqs.foldl (fun s r => applyDiffs s (transformDiffs pd r.diffs)) auth)).cache
        = applyEntries (alookup id auth.cache) (diffsOn id (reqDiffs reqs)) := by
  induction reqs with
  | nil => intro auth; rfl
  | cons r rest ih =>
    intro auth
    calc alookup id ((rest.foldl (fun s r => applyDiffs s (transformDiffs pd r.diffs))
            (applyDiffs auth (transformDiffs pd r.diffs)))).cache
        = applyEntries (alookup id (applyDiffs auth (transformDiffs pd r.diffs)).cache)
            (diffsOn id (reqDiffs rest)) := ih _
      _ = applyEntries (applyEntries (alookup id auth.cache) (diffsOn id r.diffs))
            (diffsOn id (reqDiffs rest)) := by
          rw [alookup_applyDiffs, diffsOn_transformDiffs pd r.diffs id h]
      _ = applyEntries (alookup id auth.cache) (diffsOn id (reqDiffs (r :: rest))) := by
          rw [reqDiffs_cons, diffsOn_append, applyEntries_append]

/-- The well-formedness invariant of a document's rendered snapshot: with
requests pending, the rendered cache is the head request's authoritative
`before` cache with all pending optimistic diffs re-applied (spec §4.3,
"Optimistic replay").  Every reachable document satisfies it: it holds for
`initDoc` (`initDoc_coherent`) and is preserved by `changeCmds`
(`changeCmds_coherent`) and by `applyPatch` (`applyPatch_coherent`). -/
def coherent (doc : Doc) : Prop :=
  doc.requests = [] ∨
    doc.snap.cache = (replayPlain (reqHead doc).before doc.requests).cache

/-- A fresh document is coherent. -/
theorem initDoc_coherent (a : Option ActorId) : coherent (initDoc a) :=
  Or.inl rfl

theorem replayPlain_singleton (s : Snap) (x : Request) :
    replayPlain s [x] = applyDiffs s x.diffs := rfl

theorem replay_fold_invariant (pd : List Diff) (reqs : List Request) :
    ∀ acc : Snap × List Request,
      (∀ r' rest', acc.2 = r' :: rest' →
        acc.1.cache = (replayPlain r'.before acc.2).cache) →
      ∀ r' rest', (reqs.foldl (replayStep pd) acc).2 = r' :: rest' →
        (reqs.foldl (replayStep pd) acc).1.cache
          = (replayPlain r'.before (reqs.foldl (replayStep pd) acc).2).cache := by
  induction reqs with
  | nil => intro acc h; exact h
  | cons r rest ih =>
    intro acc hacc
    simp only [List.foldl_cons]
    apply ih
    intro r' rest' heq
    simp only [replayStep] at heq ⊢
    rcases h2 : acc.2 with _ | ⟨r0, rest0⟩
    · rw [h2] at heq
      simp only [List.nil_append] at heq ⊢
      injection heq with ha hb
      rw [← ha]
      rfl
    · have hI := hacc r0 rest0 h2
      rw [h2] at hI
      rw [h2] at heq
      simp only [List.cons_append] at heq
      injection heq with ha hb
      rw [← ha, replayPlain_append, replayPlain_singleton, applyDiffs_cache,
        applyDiffs_cache, ← hI]

/-- Every document produced by `applyPatch` is coherent: acknowledgment and
remote reconciliation alike rebuild the rendered cache from the
authoritative base by replaying the still-pending requests, refreshing each
request's `before` snapshot on the way. -/
theorem applyPatch_coherent (doc : Doc) (patch : Patch) (doc' : Doc)
    (h : applyPatch doc patch = .ok doc') : coherent doc' := by
  rcases hq : doc.requests with _ | ⟨r, rest⟩
  · simp only [applyPatch, hq] at h
    injection h with h'
    subst h'
    exact Or.inl rfl
  · have main : ∀ (auth : Snap) (reqs : List Request),
        doc' = bumpMeta doc patch (replay auth reqs patch.diffs).1
          (replay auth reqs patch.diffs).2 → coherent doc' := by
      intro auth reqs hdoc
      have hinv := replay_fold_invariant patch.diffs reqs (auth, [])
        (by intro r0 rest0 h0; exact absurd h0 (by simp))
      rcases hout : (replay auth reqs patch.diffs).2 with _ | ⟨r', rest'⟩
      · left
        rw [hdoc, bumpMeta_requests]
        exact hout
      · right
        rw [hdoc, bumpMeta_snap, bumpMeta_requests, hout]
        rw [show reqHead (bumpMeta doc patch (replay auth reqs patch.diffs).1
            (r' :: rest')) = r' from by
          simp [reqHead, bumpMeta_requests]]
        have hout' : (List.foldl (replayStep patch.diffs) (auth, []) reqs).2
            = r' :: rest' := hout
        have h1 := hinv r' rest' hout'
        rw [hout'] at h1
        exact h1
    simp only [applyPatch, hq] at h
    split at h
    · split at h
      · injection h with h'
        exact main _ _ h'.symm
      · exact absurd h (by simp)
    · injection h with h'
      exact main _ _ h'.symm

theorem insDiffs_cacheFold (actor : ActorId) (listId : ObjectId) (vals : List Value) :
    ∀ (i : Nat) (es : List (ElemId × Value)), es.length = i →
      ∀ cache : List (ObjectId × Node),
        (insDiffs actor listId i vals).foldl applyDiffCache
            (aset listId (.listNode es) cache)
          = aset listId (.listNode (es ++ mintPairs actor i vals)) cache := by
  induction vals with
  | nil =>
    intro i es hlen cache
    simp [insDiffs, mintPairs]
  | cons v rest ih =>
    intro i es hlen cache
    have h1 : alookup listId (aset listId (Node.listNode es) cache)
        = some (.listNode es) := alookup_aset_self _ _ _
    have htake : es.take i = es := by
      rw [← hlen]
      exact List.take_length es
    have hdrop : es.drop i = [] := by
      rw [← hlen]
      exact List.drop_length es
    have hle : i ≤ es.length := le_of_eq hlen.symm
    have hstep : applyDiffCache (aset listId (Node.listNode es) cache)
        (Diff.insert listId i v ⟨actor, i + 1⟩)
        = aset listId (.listNode (es ++ [(⟨actor, i + 1⟩, v)])) cache := by
      simp [applyDiffCache, h1, hle, htake, hdrop, aset_aset_self]
    simp only [insDiffs, List.foldl_cons, hstep]
    have hlen2 : (es ++ [(ElemId.mk actor (i + 1), v)]).length = i + 1 := by
      simp [hlen]
    rw [ih (i + 1) (es ++ [(ElemId.mk actor (i + 1), v)]) hlen2 cache]
    simp [mintPairs]

theorem applyCmd_cache (actor : ActorId) (ctx ctx' : Ctx) (cmd : Cmd)
    (h : applyCmd actor ctx cmd = .ok ctx') :
    ∃ ds, ctx'.diffs = ctx.diffs ++ ds
      ∧ ctx'.snap.cache = ds.foldl applyDiffCache ctx.snap.cache := by
  cases cmd with
  | newList parent key listId vals =>
    simp only [applyCmd] at h
    repeat' split at h
    all_goals first
      | exact Except.noConfusion h
      | (rename_i hx3 hfresh hx2 fs hpar hx1 hnc
         injection h with h'
         subst h'
         have hne : parent ≠ listId := by
           intro he
           rw [he, hfresh] at hpar
           exact Option.noConfusion hpar
         have hinner : List.foldl applyDiffCache ctx.snap.cache
             (Diff.createList listId :: insDiffs actor listId 0 vals)
             = aset listId (.listNode (mintPairs actor 0 vals)) ctx.snap.cache := by
           rw [List.foldl_cons]
           rw [show applyDiffCache ctx.snap.cache (Diff.createList listId)
               = aset listId (.listNode []) ctx.snap.cache from rfl]
           rw [insDiffs_cacheFold actor listId vals 0 [] rfl ctx.snap.cache]
           simp
         have hds : ((Diff.createList listId :: insDiffs actor listId 0 vals) ++
             [Diff.setMap parent key (Value.objRef listId) []]).foldl applyDiffCache
               ctx.snap.cache
             = aset parent (.mapNode (aset key (.objRef listId) fs))
                 (aset listId (.listNode (mintPairs actor 0 vals)) ctx.snap.cache) := by
           rw [List.foldl_append, hinner]
           simp only [List.foldl_cons, List.foldl_nil]
           simp [applyDiffCache, alookup_aset_ne parent listId _ _ hne, hpar]
         refine ⟨(Diff.createList listId :: insDiffs actor listId 0 vals) ++
           [Diff.setMap parent key (Value.objRef listId) []], ?_, hds.symm⟩
         show ctx.diffs ++ Diff.createList listId :: insDiffs actor listId 0 vals ++
           [Diff.setMap parent key (Value.objRef listId) []] = _
         rw [List.append_assoc])
  | _ =>
    simp only [applyCmd] at h
    repeat' split at h
    all_goals first
      | exact Except.noConfusion h
      | (injection h with h'
         subst h'
         exact ⟨_, rfl, by simp_all [applyDiffCache]⟩)

theorem foldCmds_cache (actor : ActorId) (cmds : List Cmd) :
    ∀ ctx ctx' : Ctx, List.foldlM (applyCmd actor) ctx cmds = .ok ctx' →
      ∃ ds, ctx'.diffs = ctx.diffs ++ ds
        ∧ ctx'.snap.cache = ds.foldl applyDiffCache ctx.snap.cache := by
  induction cmds with
  | nil =>
    intro ctx ctx' h
    simp only [List.foldlM, pure, Except.pure] at h
    injection h with h'
    subst h'
    exact ⟨[], by simp, by simp⟩
  | cons c cs ih =>
    intro ctx ctx' h
    simp only [List.foldlM] at h
    rcases h1 : applyCmd actor ctx c with e | ctx1 <;> rw [h1] at h
    · simp [bind, Except.bind] at h
    · simp only [bind, Except.bind] at h
      obtain ⟨ds1, hd1, hc1⟩ := applyCmd_cache actor ctx ctx1 c h1
      obtain ⟨ds2, hd2, hc2⟩ := ih ctx1 ctx' h
      exact ⟨ds1 ++ ds2, by rw [hd2, hd1, List.append_assoc],
        by rw [hc2, hc1, List.foldl_append]⟩

theorem runCmds_cache (actor : ActorId) (doc : Doc) (cmds : List Cmd) (ctx' : Ctx)
    (h : runCmds actor doc cmds = .ok ctx') :
    ctx'.snap.cache = ctx'.diffs.foldl applyDiffCache doc.snap.cache := by
  obtain ⟨ds, hd, hc⟩ :=
    foldCmds_cache actor cmds ⟨doc.snap, [], [], doc.maxElem⟩ ctx' h
  simp only [List.nil_append] at hd
  rw [hd]
  exact hc

/-- Every document produced by `changeCmds` from a coherent document is
coherent: the appended request carries exactly the locally computed diffs,
whose cache effect reproduces the scratch overlay. -/
theorem changeCmds_coherent (doc : Doc) (cmds : List Cmd) (doc' : Doc) (q : Option Request)
    (hwf : coherent doc) (h : changeCmds doc cmds = .ok (doc', q)) :
    coherent doc' := by
  rcases hact : doc.actorId with _ | actor
  · simp only [changeCmds, hact] at h
    split at h
    · injection h with h'
      injection h' with ha hb
      subst ha
      exact hwf
    · exact Except.noConfusion h
  · simp only [changeCmds, hact] at h
    rcases hrun : runCmds actor doc cmds with e | ctx
    · simp only [hrun] at h
      exact Except.noConfusion h
    · simp only [hrun] at h
      split at h
      · injection h with h'
        injection h' with ha hb
        subst ha
        exact hwf
      · injection h with h'
        injection h' with ha hb
        subst ha
        right
        have hcc := runCmds_cache actor doc cmds ctx hrun
        rcases hq : doc.requests with _ | ⟨r0, rest0⟩
        · simp only [hq, List.nil_append, reqHead]
          rw [replayPlain_singleton, applyDiffs_cache]
          exact hcc
        · have hco : doc.snap.cache = (replayPlain r0.before doc.requests).cache := by
            rcases hwf with hl | hr
            · rw [hq] at hl
              exact absurd hl (by simp)
            · rw [show reqHead doc = r0 from by simp [reqHead, hq]] at hr
              exact hr
          simp only [hq, List.cons_append, reqHead]
          rw [show (r0 :: (rest0 ++
              [(⟨actor, doc.seq + 1, aremove actor doc.deps, ctx.ops, ctx.diffs,
                doc.snap⟩ : Request)]))
              = (r0 :: rest0) ++
              [(⟨actor, doc.seq + 1, aremove actor doc.deps, ctx.ops, ctx.diffs,
                doc.snap⟩ : Request)] from by simp]
          rw [replayPlain_append, replayPlain_singleton, applyDiffs_cache]
          rw [← hq]
          rw [← hco]
          exact hcc

theorem applyPatchOk_empty (doc : Doc) (patch : Patch) (hq : doc.requests = []) :
    applyPatchOk doc patch = bumpMeta doc patch (applyDiffs doc.snap patch.diffs) [] := by
  simp [applyPatchOk, applyPatch, hq, Except.toOption]

/-- C8: applying a patch leaves every object that none of the patch's diffs
touches with exactly the same cache entry (the shallow embedding's rendering
of structural sharing / referential equality), on every coherent document —
fresh, patched or with in-flight optimistic requests.  For an acknowledgment
patch (own actor and a seq, which pops the queue head) the popped request's
own diffs must also avoid the object, since its optimistic effect is rolled
back and redone from the authoritative base (spec §4.3: the authoritative
diffs overwrite any optimistic tentative state for the same objects). -/
theorem applyPatch_frame (doc : Doc) (patch : Patch) (id : ObjectId)
    (hwf : coherent doc)
    (hp : ∀ d ∈ patch.diffs, id ≠ d.obj)
    (hack : (patch.seq.isSome ∧ patch.actor.isSome ∧ patch.actor = doc.actorId) →
      ∀ d ∈ (reqHead doc).diffs, id ≠ d.obj) :
    alookup id (applyPatchOk doc patch).snap.cache = alookup id doc.snap.cache := by
  rcases hq : doc.requests with _ | ⟨r, rest⟩
  · rw [applyPatchOk_empty doc patch hq]
    show alookup id (applyDiffs doc.snap patch.diffs).cache = _
    rw [alookup_applyDiffs, diffsOn_untouched id patch.diffs hp]
    rfl
  · have hhead : reqHead doc = r := by simp [reqHead, hq]
    have hco : doc.snap.cache = (replayPlain r.before doc.requests).cache := by
      rcases hwf with hl | hr
      · rw [hq] at hl
        exact absurd hl (by simp)
      · rw [hhead] at hr
        exact hr
    have hold : alookup id doc.snap.cache
        = applyEntries (alookup id r.before.cache)
            (diffsOn id (reqDiffs (r :: rest))) := by
      rw [hco, hq, alookup_replayPlain]
    by_cases hc : patch.seq.isSome ∧ patch.actor.isSome ∧ patch.actor = doc.actorId
    · by_cases hs : patch.seq = some r.seq
      · have hr' := hack hc
        rw [hhead] at hr'
        have hstep : applyPatch doc patch = .ok (bumpMeta doc patch
            (replay (applyDiffs r.before patch.diffs) rest patch.diffs).1
            (replay (applyDiffs r.before patch.diffs) rest patch.diffs).2) := by
          simp only [applyPatch, hq]
          rw [if_pos hc, if_pos hs]
        have happ : applyPatchOk doc patch = bumpMeta doc patch
            (replay (applyDiffs r.before patch.diffs) rest patch.diffs).1
            (replay (applyDiffs r.before patch.diffs) rest patch.diffs).2 := by
          simp [applyPatchOk, hstep, Except.toOption]
        rw [happ]
        show alookup id
            (replay (applyDiffs r.before patch.diffs) rest patch.diffs).1.cache = _
        rw [show (replay (applyDiffs r.before patch.diffs) rest patch.diffs).1
            = rest.foldl (fun s x => applyDiffs s (transformDiffs patch.diffs x.diffs))
              (applyDiffs r.before patch.diffs)
            from replay_fst patch.diffs rest (applyDiffs r.before patch.diffs) []]
        rw [alookup_replayTransformed patch.diffs rest id hp
          (applyDiffs r.before patch.diffs)]
        rw [alookup_applyDiffs, diffsOn_untouched id patch.diffs hp]
        rw [hold, reqDiffs_cons, diffsOn_append, diffsOn_untouched id r.diffs hr']
        rw [List.nil_append]
        rfl
      · have hstep : applyPatch doc patch = .error .mismatchedSequence := by
          simp only [applyPatch, hq]
          rw [if_pos hc, if_neg hs]
        have happ : applyPatchOk doc patch = doc := by
          simp [applyPatchOk, hstep, Except.toOption]
        rw [happ]
    · have hstep : applyPatch doc patch = .ok (bumpMeta doc patch
          (replay (applyDiffs r.before patch.diffs) (r :: rest) patch.diffs).1
          (replay (applyDiffs r.before patch.diffs) (r :: rest) patch.diffs).2) := by
        simp only [applyPatch, hq]
        rw [if_neg hc]
      have happ : applyPatchOk doc patch = bumpMeta doc patch
          (replay (applyDiffs r.before patch.diffs) (r :: rest) patch.diffs).1
          (replay (applyDiffs r.before patch.diffs) (r :: rest) patch.diffs).2 := by
        simp [applyPatchOk, hstep, Except.toOption]
      rw [happ]
      show alookup id
          (replay (applyDiffs r.before patch.diffs) (r :: rest) patch.diffs).1.cache = _
      rw [show (replay (applyDiffs r.before patch.diffs) (r :: rest) patch.diffs).1
          = (r :: rest).foldl
              (fun s x => applyDiffs s (transformDiffs patch.diffs x.diffs))
            (applyDiffs r.before patch.diffs)
          from replay_fst patch.diffs (r :: rest) (applyDiffs r.before patch.diffs) []]
      rw [alookup_replayTransformed patch.diffs (r :: rest) id hp
        (applyDiffs r.before patch.diffs)]
      rw [alookup_applyDiffs, diffsOn_untouched id patch.diffs hp]
      rw [hold]
      rfl

/-- A base document holding the `birds` and `mammals` maps of the test
"should share unmodified objects between documents" (remote patch form). -/
def exSharePatch0 : Patch :=
  ⟨none, none, none, none,
    [.createMap exBirdsId, .setMap exBirdsId kWrens (.int 3) [],
     .createMap exMammalsId, .setMap exMammalsId kBadgers (.int 1) [],
     .setMap ROOT_ID kBirds (.objRef exBirdsId) [],
     .setMap ROOT_ID kMammals (.objRef exMammalsId) []]⟩

/-- The shared-objects base document. -/
def exShareDoc : Doc := applyPatchOk (initDoc (some exA)) exSharePatch0

/-- The base document with an in-flight optimistic change touching `birds`. -/
def exSharePending : Doc :=
  changeOk exShareDoc [.setKey exBirdsId kSparrows (.int 15)]

/-- A remote patch from another actor updating only the `birds` object. -/
def exShareRemote : Patch :=
  ⟨some exB, some 1, none, none, [.setMap exBirdsId kWrens (.int 4) []]⟩

/-- Witness for C8 on a document with an in-flight request: the remote patch
touches only `birds`, and the `mammals` cache entry is preserved exactly. -/
theorem applyPatch_frame_witness :
    coherent exSharePending
      ∧ (∀ d ∈ exShareRemote.diffs, exMammalsId ≠ d.obj)
      ∧ exSharePending.requests ≠ []
      ∧ alookup exMammalsId (applyPatchOk exSharePending exShareRemote).snap.cache
          = alookup exMammalsId exSharePending.snap.cache :=
  ⟨Or.inr (by decide), by decide, by decide,
    applyPatch_frame exSharePending exShareRemote exMammalsId (Or.inr (by decide))
      (by decide) (fun hcond => absurd hcond.2.2 (by decide))⟩

/-! ## C2 — conflict buckets record losing branches; updates inside a losing
branch leave the main view unchanged -/

/-- The materialisation of a conflict bucket against a document's cache,
exactly as `getConflicts` resolves it. -/
def matBucket (doc : Doc) (cfl : List (ActorId × Value)) : List (ActorId × MVal) :=
  cfl.map fun p => (p.1, matValue doc.snap.cache (doc.snap.cache.length + 1) p.2)

theorem getConflicts_eq_matBucket (doc : Doc) (obj : ObjectId) (key : String)
    (cfl : List (ActorId × Value))
    (h : getConflictsRaw doc obj key = some cfl) :
    getConflicts doc obj key = some (matBucket doc cfl) := by
  simp [getConflicts, h, matBucket]

/-- C2: for every document with no in-flight requests, every object `obj`
held as a map in its cache, every key, winning value `v`, and every
non-empty conflicts array `cfl` (any number of losing actors, plain or
link-valued losing candidates), applying a patch whose diff carries that
conflicts array makes the diff's main value `v` the materialised field of
`obj.key`, and `getConflicts` on that key returns the bucket mapping each
losing actor to its last-written losing value (materialised through the
cache).  Moreover, for every later patch whose diff references an object
`b` of a losing branch (any object other than `obj`), only the losing
branch's node — hence the materialised conflict bucket — changes: the
bucket still records the same candidates, and the main view of the key (its
winning value, and through `applyDiffCache_other` every object other than
`b`) is unchanged.  In-flight requests are excluded because during
reconciliation the rendered buckets are rebuilt from the authoritative
base; both sourced tests apply conflicts to documents with no pending
requests. -/
theorem conflicts_record_losing_branch (doc : Doc) (patch : Patch) (obj : ObjectId)
    (key : String) (v : Value) (cfl : List (ActorId × Value))
    (fs : List (String × Value))
    (hq : doc.requests = [])
    (hdiffs : patch.diffs = [.setMap obj key v cfl])
    (hobj : alookup obj doc.snap.cache = some (.mapNode fs))
    (hcfl : cfl ≠ []) :
    alookup obj (applyPatchOk doc patch).snap.cache = some (.mapNode (aset key v fs))
    ∧ getConflictsRaw (applyPatchOk doc patch) obj key = some cfl
    ∧ getConflicts (applyPatchOk doc patch) obj key
        = some (matBucket (applyPatchOk doc patch) cfl)
    ∧ (∀ (patch2 : Patch) (b : ObjectId) (key2 : String) (v2 : Value)
        (fsb : List (String × Value)),
        patch2.diffs = [.setMap b key2 v2 []] →
        b ≠ obj →
        alookup b (applyPatchOk doc patch).snap.cache = some (.mapNode fsb) →
        alookup b (applyPatchOk (applyPatchOk doc patch) patch2).snap.cache
            = some (.mapNode (aset key2 v2 fsb))
        ∧ getConflictsRaw (applyPatchOk (applyPatchOk doc patch) patch2) obj key = some cfl
        ∧ alookup obj (applyPatchOk (applyPatchOk doc patch) patch2).snap.cache
            = some (.mapNode (aset key v fs))) := by
  have happly : applyPatchOk doc patch = bumpMeta doc patch (applyDiffs doc.snap patch.diffs) [] :=
    applyPatchOk_empty doc patch hq
  have hcache : (applyPatchOk doc patch).snap.cache
      = aset obj (.mapNode (aset key v fs)) doc.snap.cache := by
    rw [happly, bumpMeta_snap, applyDiffs_cache, hdiffs]
    simp [applyDiffCache, hobj]
  have hconf : (applyPatchOk doc patch).snap.conflicts
      = setConf obj key cfl doc.snap.conflicts := by
    rw [happly, bumpMeta_snap, hdiffs]
    simp [applyDiffs, applyDiff, applyDiffConf, hobj]
  have hbucket : getConflictsRaw (applyPatchOk doc patch) obj key = some cfl := by
    rw [getConflictsRaw, hconf, setConf]
    rw [if_neg (by simpa using hcfl)]
    rw [alookup_aset_self]
    simp [alookup_aset_self]
  have hfield : alookup obj (applyPatchOk doc patch).snap.cache
      = some (.mapNode (aset key v fs)) := by
    rw [hcache, alookup_aset_self]
  have hreq1 : (applyPatchOk doc patch).requests = [] := by
    rw [happly, bumpMeta_requests]
  refine ⟨hfield, hbucket, getConflicts_eq_matBucket _ _ _ _ hbucket, ?_⟩
  intro patch2 b key2 v2 fsb hdiffs2 hb hfb
  have happly2 : applyPatchOk (applyPatchOk doc patch) patch2
      = bumpMeta (applyPatchOk doc patch) patch2
          (applyDiffs (applyPatchOk doc patch).snap patch2.diffs) [] :=
    applyPatchOk_empty (applyPatchOk doc patch) patch2 hreq1
  have hcache2 : (applyPatchOk (applyPatchOk doc patch) patch2).snap.cache
      = aset b (.mapNode (aset key2 v2 fsb)) (applyPatchOk doc patch).snap.cache := by
    rw [happly2, bumpMeta_snap, applyDiffs_cache, hdiffs2]
    simp [applyDiffCache, hfb]
  have hconf2 : (applyPatchOk (applyPatchOk doc patch) patch2).snap.conflicts
      = setConf b key2 [] (applyPatchOk doc patch).snap.conflicts := by
    rw [happly2, bumpMeta_snap, hdiffs2]
    simp [applyDiffs, applyDiff, applyDiffConf, hfb]
  refine ⟨?_, ?_, ?_⟩
  · rw [hcache2, alookup_aset_self]
  · rw [getConflictsRaw, hconf2, setConf]
    simp only [List.isEmpty_nil, if_pos]
    rw [alookup_aset_ne obj b _ _ (Ne.symm hb)]
    exact hbucket
  · rw [hcache2, alookup_aset_ne obj b _ _ (Ne.symm hb)]
    exact hfield

/-- Input for the C2 witness: a non-fresh document (it already holds a
`mammals` map and root fields) receiving a conflicts array with two losing
actors — one plain value and one link to a losing-branch map, as in the
tests "should reveal conflicts on root object properties" and "should apply
updates inside map key conflicts". -/
def exConflictBase : Doc :=
  applyPatchOk (initDoc (some exA))
    ⟨none, none, none, none,
     [.createMap exMammalsId, .setMap exMammalsId kBadgers (.int 1) [],
      .setMap ROOT_ID kMammals (.objRef exMammalsId) [],
      .createMap exBirdsId, .setMap exBirdsId kWrens (.int 3) [],
      .createMap exBirds2Id, .setMap exBirds2Id kBlackbirds (.int 1) []]⟩

/-- The conflicts array of the C2 witness: two losing actors, one plain
(`robin`) and one a link to the losing branch `exBirds2Id`. -/
def exConflictArr : List (ActorId × Value) :=
  [(exActorX, .str sRobin), (exB, .objRef exBirds2Id)]

/-- The conflicts-carrying patch of the C2 witness: `birds` wins with a link
to `exBirdsId`. -/
def exConflictPatch : Patch :=
  ⟨none, none, none, none, [.setMap ROOT_ID kBirds (.objRef exBirdsId) exConflictArr]⟩

/-- The later patch of the C2 witness, updating the losing branch. -/
def exConflictPatch2 : Patch :=
  ⟨none, none, none, none, [.setMap exBirds2Id kBlackbirds (.int 2) []]⟩

/-- The root fields of the C2 witness document. -/
def exConflictRootFs : List (String × Value) :=
  [(kMammals, .objRef exMammalsId)]

theorem conflicts_record_losing_branch_witness :
    exConflictBase.requests = []
    ∧ exConflictPatch.diffs = [.setMap ROOT_ID kBirds (.objRef exBirdsId) exConflictArr]
    ∧ alookup ROOT_ID exConflictBase.snap.cache = some (.mapNode exConflictRootFs)
    ∧ exConflictArr ≠ []
    ∧ getConflictsRaw (applyPatchOk exConflictBase exConflictPatch) ROOT_ID kBirds
        = some exConflictArr
    ∧ getConflicts (applyPatchOk exConflictBase exConflictPatch) ROOT_ID kBirds
        = some [(exActorX, .str sRobin), (exB, .map [(kBlackbirds, .int 1)])]
    ∧ (alookup exBirds2Id (applyPatchOk (applyPatchOk exConflictBase exConflictPatch)
          exConflictPatch2).snap.cache
        = some (.mapNode (aset kBlackbirds (.int 2) [(kBlackbirds, .int 1)]))
      ∧ getConflictsRaw (applyPatchOk (applyPatchOk exConflictBase exConflictPatch)
          exConflictPatch2) ROOT_ID kBirds = some exConflictArr
      ∧ alookup ROOT_ID (applyPatchOk (applyPatchOk exConflictBase exConflictPatch)
          exConflictPatch2).snap.cache
        = some (.mapNode (aset kBirds (.objRef exBirdsId) exConflictRootFs)))
    ∧ getConflicts (applyPatchOk (applyPatchOk exConflictBase exConflictPatch)
        exConflictPatch2) ROOT_ID kBirds
        = some [(exActorX, .str sRobin), (exB, .map [(kBlackbirds, .int 2)])] :=
  ⟨by decide, by decide, by decide, by decide,
   (conflicts_record_losing_branch exConflictBase exConflictPatch ROOT_ID kBirds
      (.objRef exBirdsId) exConflictArr exConflictRootFs (by decide) (by decide)
      (by decide) (by decide)).2.1,
   by rfl,
   (conflicts_record_losing_branch exConflictBase exConflictPatch ROOT_ID kBirds
      (.objRef exBirdsId) exConflictArr exConflictRootFs (by decide) (by decide)
      (by decide) (by decide)).2.2.2 exConflictPatch2 exBirds2Id kBlackbirds (.int 2)
      [(kBlackbirds, .int 1)] (by decide) (by decide) (by decide),
   by rfl⟩

/-! ## C1 — concurrent insertions are ordered by arrival, not by `ElemId`

The scenario of the test "should transform concurrent insertions" (whose own
`TODO` comment acknowledges the order is not correct): starting from
`birds = [goldfinch (A:1)]` with local optimistic inserts
`chaffinch (A:2)` at 0 and `greenfinch (A:3)` at 2 pending, a remote patch
inserts `bullfinch (B:2)` at index 1. -/

/-- The document after the first local change and its acknowledgment:
`birds = [goldfinch]`, empty queue. -/
def exC1doc1 : Doc :=
  applyPatchOk
    (changeOk (initDoc (some exA)) [.newList ROOT_ID kBirds exBirdsId [.str sGoldfinch]])
    ⟨some exA, some 1, none, none,
     [.createList exBirdsId, .insert exBirdsId 0 (.str sGoldfinch) ⟨exA, 1⟩,
      .setMap ROOT_ID kBirds (.objRef exBirdsId) []]⟩

/-- After the second local change: optimistic `[chaffinch, goldfinch,
greenfinch]`, one pending request. -/
def exC1doc2 : Doc :=
  changeOk exC1doc1
    [.insertAt exBirdsId 0 (.str sChaffinch), .insertAt exBirdsId 2 (.str sGreenfinch)]

/-- After the concurrent remote insertion of `bullfinch (B:2)` at index 1. -/
def exC1doc3 : Doc :=
  applyPatchOk exC1doc2
    ⟨some exB, some 1, none, none, [.insert exBirdsId 1 (.str sBullfinch) ⟨exB, 2⟩]⟩

/-- After the acknowledgment of the second local change. -/
def exC1doc4 : Doc :=
  applyPatchOk exC1doc3
    ⟨some exA, some 2, none, none,
     [.insert exBirdsId 0 (.str sChaffinch) ⟨exA, 2⟩,
      .insert exBirdsId 2 (.str sGreenfinch) ⟨exA, 3⟩]⟩

/-- C1 (refuted on the modelled code — the code bug the test's `TODO`
acknowledges): after the concurrent remote insertion, the rendered list
places `bullfinch (B:2)` before `greenfinch (A:3)`, yet after the
acknowledgment patch the same two concurrently inserted elements appear in
the opposite relative order; the rendered order of concurrently inserted
elements is therefore not a function of the `ElemId` total order (under
which `B:2 < A:3`, third conjunct) — it follows the arrival-based index
transformation, contradicting the claim. -/
theorem concurrent_insertions_ordered_by_arrival :
    alookup exBirdsId exC1doc3.snap.cache
      = some (.listNode [(⟨exA, 2⟩, .str sChaffinch), (⟨exA, 1⟩, .str sGoldfinch),
          (⟨exB, 2⟩, .str sBullfinch), (⟨exA, 3⟩, .str sGreenfinch)])
    ∧ alookup exBirdsId exC1doc4.snap.cache
      = some (.listNode [(⟨exA, 2⟩, .str sChaffinch), (⟨exA, 1⟩, .str sGoldfinch),
          (⟨exA, 3⟩, .str sGreenfinch), (⟨exB, 2⟩, .str sBullfinch)])
    ∧ ElemId.ltb ⟨exB, 2⟩ ⟨exA, 3⟩ = true :=
  ⟨by decide, by decide, by decide⟩

end Automerge
